import Mathlib

/-!
Shallow embedding of the gallery-cache subsystem of the event-gallery
repository (src/lib/galleryCache.ts and the gallery read path in
src/components/Gallery.tsx), with theorems settling the spec claims.

JS `Map` objects are embedded as association lists whose operations mirror
`Map.get` / `Map.set` / `Map.delete` / `Map.clear`; timestamps (epoch
milliseconds from `Date.now()`) are integers; timers created by
`setInterval` / `setTimeout` are records tagged with a fresh numeric id.
-/

namespace EventGallery

/-! ## JS Map embedding (association lists) -/

/-- `Map.get k`: first binding for the key, if any. -/
def mapGet {α : Type} (k : String) : List (String × α) → Option α
  | [] => none
  | p :: rest => if p.1 = k then some p.2 else mapGet k rest

/-- `Map.set k v`: replace the binding for `k`, or append a new one. -/
def mapSet {α : Type} (k : String) (v : α) : List (String × α) → List (String × α)
  | [] => [(k, v)]
  | p :: rest => if p.1 = k then (k, v) :: rest else p :: mapSet k v rest

/-- `Map.delete k`: remove the binding(s) for `k`. -/
def mapDelete {α : Type} (k : String) (m : List (String × α)) : List (String × α) :=
  m.filter (fun p => p.1 ≠ k)

theorem mapGet_mapSet_self {α : Type} (k : String) (v : α) (m : List (String × α)) :
    mapGet k (mapSet k v m) = some v := by
  induction m with
  | nil => simp [mapSet, mapGet]
  | cons p rest ih =>
    unfold mapSet
    by_cases h : p.1 = k
    · rw [if_pos h]; simp [mapGet]
    · rw [if_neg h]; simp [mapGet, h, ih]

theorem mapGet_mapSet_ne {α : Type} {k k9 : String} (v : α) (m : List (String × α))
    (h : k9 ≠ k) : mapGet k (mapSet k9 v m) = mapGet k m := by
  induction m with
  | nil => simp [mapSet, mapGet, h]
  | cons p rest ih =>
    unfold mapSet
    by_cases hp : p.1 = k9
    · have hk : p.1 ≠ k := by rw [hp]; exact h
      rw [if_pos hp]
      simp [mapGet, h, hk]
    · rw [if_neg hp]
      by_cases hk : p.1 = k <;> simp [mapGet, hk, ih]

theorem mapGet_mapDelete_self {α : Type} (k : String) (m : List (String × α)) :
    mapGet k (mapDelete k m) = none := by
  induction m with
  | nil => rfl
  | cons p rest ih =>
    by_cases h : p.1 = k
    · simpa [mapDelete, List.filter_cons, h] using ih
    · simpa [mapDelete, List.filter_cons, mapGet, h] using ih

theorem mapGet_mapDelete_ne {α : Type} {k k9 : String} (m : List (String × α))
    (h : k ≠ k9) : mapGet k (mapDelete k9 m) = mapGet k m := by
  induction m with
  | nil => rfl
  | cons p rest ih =>
    by_cases hp : p.1 = k9
    · have hk : p.1 ≠ k := by rw [hp]; exact fun hh => h hh.symm
      simpa [mapDelete, List.filter_cons, mapGet, hp, hk, Ne.symm h] using ih
    · by_cases hk : p.1 = k
      · simp [mapDelete, List.filter_cons, mapGet, hp, hk, h]
      · simpa [mapDelete, List.filter_cons, mapGet, hp, hk, h] using ih

/-! ## Listing cache (galleryCache.ts)

The cache maps an event code to a `CachedListing`; the file-descriptor type
is a parameter `α` since the cache never inspects the listing's elements. -/

/-- The `CachedListing` record: files, fetch timestamp, event code. -/
structure CachedListing (α : Type) where
  files : List α
  timestamp : Int
  eventCode : String
deriving DecidableEq, Repr

/-- `CACHE_DURATION = 5 * 60 * 1000` (5 minutes in milliseconds). -/
def CACHE_DURATION : Int := 5 * 60 * 1000

/-- `EMPTY_REVALIDATION_INTERVAL = 15 * 1000` (15 seconds in milliseconds). -/
def EMPTY_REVALIDATION_INTERVAL : Int := 15 * 1000

/-- The module-level `cache` map state. -/
def CacheState (α : Type) := List (String × CachedListing α)

instance {α : Type} [DecidableEq α] : DecidableEq (CacheState α) := by
  unfold CacheState; infer_instance

/-- `getCachedListing`: return the entry if present and fresh; delete and
return `null` when the entry is older than `CACHE_DURATION` at time `now`.
Returns the result together with the updated cache map. -/
def getCachedListing {α : Type} (eventCode : String) (now : Int)
    (cache : CacheState α) : Option (CachedListing α) × CacheState α :=
  match mapGet eventCode cache with
  | none => (none, cache)
  | some cached =>
    if now - cached.timestamp > CACHE_DURATION then
      (none, mapDelete eventCode cache)
    else
      (some cached, cache)

/-- `setCachedListing`: store the files under the event code with the
current timestamp `now`. -/
def setCachedListing {α : Type} (eventCode : String) (files : List α)
    (now : Int) (cache : CacheState α) : CacheState α :=
  mapSet eventCode ⟨files, now, eventCode⟩ cache

/-- `invalidateCache`: drop the entry for the event code. -/
def invalidateCache {α : Type} (eventCode : String) (cache : CacheState α) :
    CacheState α :=
  mapDelete eventCode cache

/-- `clearCache`: drop every entry. -/
def clearCache {α : Type} (_cache : CacheState α) : CacheState α := []

/-- C1: a `get` after a `set` within the freshness window returns the entry
with exactly the stored files. -/
theorem get_after_set_fresh {α : Type} (e : String) (F : List α)
    (c : CacheState α) (tset now : Int) (h : now - tset < CACHE_DURATION) :
    (getCachedListing e now (setCachedListing e F tset c)).1 =
      some ⟨F, tset, e⟩ := by
  unfold getCachedListing setCachedListing
  rw [mapGet_mapSet_self]
  simp only
  rw [if_neg (by omega)]

/-- Witness for `get_after_set_fresh` at a concrete input. -/
theorem get_after_set_fresh_witness :
    (1000 : Int) - 0 < CACHE_DURATION ∧
      (getCachedListing "evt1" 1000
        (setCachedListing "evt1" [(100 : Nat)] 0 [])).1 =
        some ⟨[100], 0, "evt1"⟩ :=
  ⟨by decide, get_after_set_fresh "evt1" [100] [] 0 1000 (by decide)⟩

/-- C2: once the freshness window has elapsed since the `set`, `get` returns
no entry and the stale entry is removed from the map. -/
theorem get_after_expiry {α : Type} (e : String) (F : List α)
    (c : CacheState α) (tset now : Int) (h : CACHE_DURATION < now - tset) :
    (getCachedListing e now (setCachedListing e F tset c)).1 = none ∧
      mapGet e (getCachedListing e now (setCachedListing e F tset c)).2 =
        none := by
  unfold getCachedListing setCachedListing
  rw [mapGet_mapSet_self]
  simp only
  rw [if_pos (by omega)]
  exact ⟨rfl, mapGet_mapDelete_self e _⟩

/-- Witness for `get_after_expiry` at a concrete input (301 seconds later). -/
theorem get_after_expiry_witness :
    CACHE_DURATION < (301000 : Int) - 0 ∧
      ((getCachedListing "evt1" 301000
          (setCachedListing "evt1" [(100 : Nat)] 0 [])).1 = none ∧
        mapGet "evt1"
          (getCachedListing "evt1" 301000
            (setCachedListing "evt1" [(100 : Nat)] 0 [])).2 = none) :=
  ⟨by decide, get_after_expiry "evt1" [100] [] 0 301000 (by decide)⟩

/-- C9: after `invalidateCache e`, the next `get e` returns no entry, in any
cache state and at any read time. -/
theorem get_after_invalidate {α : Type} (e : String) (c : CacheState α)
    (now : Int) :
    (getCachedListing e now (invalidateCache e c)).1 = none := by
  unfold getCachedListing invalidateCache
  rw [mapGet_mapDelete_self]

/-! ## Empty-gallery revalidation scheduler (galleryCache.ts)

`setInterval` creates a live timer with a fresh numeric id; `clearInterval`
removes it from the set of live timers. The `intervals` map mirrors the
module-level `intervals` variable. Each timer carries the event code it was
created for and its callback (of abstract type `C`). -/

/-- A live repeating timer created by `setInterval`. -/
structure TimerRec (C : Type) where
  id : Nat
  event : String
  cb : C
deriving DecidableEq, Repr

/-- State of the `intervals` map together with the runtime's live timers. -/
structure SchedState (C : Type) where
  intervals : List (String × Nat)
  timers : List (TimerRec C)
  nextId : Nat
deriving DecidableEq, Repr

/-- The initial state: empty `intervals` map, no live timers. -/
def emptySched {C : Type} : SchedState C := ⟨[], [], 0⟩

/-- `stopEmptyGalleryRevalidation`: if the map has a timer for the event
code, `clearInterval` it and delete the map entry; otherwise do nothing. -/
def stopEmptyGalleryRevalidation {C : Type} (e : String) (s : SchedState C) :
    SchedState C :=
  match mapGet e s.intervals with
  | some tid =>
    { s with timers := s.timers.filter (fun t => t.id ≠ tid),
             intervals := mapDelete e s.intervals }
  | none => s

/-- `startEmptyGalleryRevalidation`: clear any existing interval for the
event code, then `setInterval` a new timer and record it in the map. -/
def startEmptyGalleryRevalidation {C : Type} (e : String) (cb : C)
    (s : SchedState C) : SchedState C :=
  let s1 := stopEmptyGalleryRevalidation e s
  { intervals := mapSet e s1.nextId s1.intervals,
    timers := s1.timers ++ [⟨s1.nextId, e, cb⟩],
    nextId := s1.nextId + 1 }

/-- `cleanupAllIntervals`: `clearInterval` every timer held in the map, then
clear the map. -/
def cleanupAllIntervals {C : Type} (s : SchedState C) : SchedState C :=
  { intervals := [],
    timers := s.timers.filter (fun t => s.intervals.all (fun p => p.2 ≠ t.id)),
    nextId := s.nextId }

/-- The live timers created for a given event code. -/
def timersFor {C : Type} (e : String) (s : SchedState C) : List (TimerRec C) :=
  s.timers.filter (fun t => t.event = e)

/-- Well-formedness of a scheduler state: timer ids are below the id
counter, every live timer is the one registered in the map for its event
code, and live timer ids are pairwise distinct. This holds for every state
reachable from `emptySched`. -/
structure SchedInv {C : Type} (s : SchedState C) : Prop where
  idBound : ∀ t ∈ s.timers, t.id < s.nextId
  registered : ∀ t ∈ s.timers, mapGet t.event s.intervals = some t.id
  idsDistinct : s.timers.Pairwise (fun a b => a.id ≠ b.id)

theorem schedInv_empty {C : Type} : SchedInv (emptySched (C := C)) := by
  constructor <;> simp [emptySched]

theorem stop_timers_mem {C : Type} {e : String} {s : SchedState C}
    {t : TimerRec C} (h : t ∈ (stopEmptyGalleryRevalidation e s).timers) :
    t ∈ s.timers := by
  unfold stopEmptyGalleryRevalidation at h
  cases hm : mapGet e s.intervals with
  | none => rw [hm] at h; exact h
  | some tid =>
    rw [hm] at h
    simp only [List.mem_filter] at h
    exact h.1

theorem stop_nextId {C : Type} (e : String) (s : SchedState C) :
    (stopEmptyGalleryRevalidation e s).nextId = s.nextId := by
  unfold stopEmptyGalleryRevalidation
  cases hm : mapGet e s.intervals <;> rfl

theorem stop_no_event {C : Type} {e : String} {s : SchedState C}
    (hInv : SchedInv s) :
    ∀ t ∈ (stopEmptyGalleryRevalidation e s).timers, t.event ≠ e := by
  intro t ht heq
  unfold stopEmptyGalleryRevalidation at ht
  cases hm : mapGet e s.intervals with
  | none =>
    rw [hm] at ht
    have hreg := hInv.registered t ht
    rw [heq, hm] at hreg
    exact Option.noConfusion hreg
  | some tid =>
    rw [hm] at ht
    simp only [List.mem_filter, decide_eq_true_eq] at ht
    obtain ⟨ht1, ht2⟩ := ht
    have hreg := hInv.registered t ht1
    rw [heq, hm] at hreg
    exact ht2 (Option.some.inj hreg).symm

theorem schedInv_stop {C : Type} (e : String) {s : SchedState C}
    (hInv : SchedInv s) : SchedInv (stopEmptyGalleryRevalidation e s) := by
  have hmem := fun {t} h => stop_timers_mem (C := C) (e := e) (s := s) (t := t) h
  have hev := stop_no_event (e := e) hInv
  constructor
  · intro t ht
    rw [stop_nextId]
    exact hInv.idBound t (hmem ht)
  · intro t ht
    have h1 := hInv.registered t (hmem ht)
    have h2 := hev t ht
    unfold stopEmptyGalleryRevalidation at ht ⊢
    cases hm : mapGet e s.intervals with
    | none => exact h1
    | some tid =>
      rw [mapGet_mapDelete_ne _ h2]
      exact h1
  · unfold stopEmptyGalleryRevalidation
    cases hm : mapGet e s.intervals with
    | none => exact hInv.idsDistinct
    | some tid => exact hInv.idsDistinct.sublist (List.filter_sublist _)

theorem schedInv_start {C : Type} (e : String) (cb : C) {s : SchedState C}
    (hInv : SchedInv s) : SchedInv (startEmptyGalleryRevalidation e cb s) := by
  have h1 := schedInv_stop e hInv
  have hne := stop_no_event (e := e) hInv
  unfold startEmptyGalleryRevalidation
  constructor
  · intro t ht
    simp only [List.mem_append, List.mem_singleton] at ht
    cases ht with
    | inl h => exact Nat.lt_succ_of_lt (h1.idBound t h)
    | inr h => rw [h]; exact Nat.lt_succ_self _
  · intro t ht
    simp only [List.mem_append, List.mem_singleton] at ht
    cases ht with
    | inl h =>
      rw [mapGet_mapSet_ne _ _ (Ne.symm (hne t h))]
      exact h1.registered t h
    | inr h => rw [h]; exact mapGet_mapSet_self _ _ _
  · rw [List.pairwise_append]
    refine ⟨h1.idsDistinct, List.pairwise_singleton _ _, ?_⟩
    intro a ha b hb
    simp only [List.mem_singleton] at hb
    rw [hb]
    exact Nat.ne_of_lt (h1.idBound a ha)

theorem mapGet_mem {α : Type} {k : String} {v : α} :
    ∀ {m : List (String × α)}, mapGet k m = some v → ∃ p ∈ m, p.2 = v := by
  intro m
  induction m with
  | nil => intro h; exact absurd h (by simp [mapGet])
  | cons p rest ih =>
    intro h
    unfold mapGet at h
    by_cases hp : p.1 = k
    · rw [if_pos hp] at h
      exact ⟨p, List.mem_cons_self _ _, Option.some.inj h⟩
    · rw [if_neg hp] at h
      obtain ⟨q, hq, hv⟩ := ih h
      exact ⟨q, List.mem_cons_of_mem _ hq, hv⟩

theorem cleanup_timers_nil {C : Type} {s : SchedState C} (hInv : SchedInv s) :
    (cleanupAllIntervals s).timers = [] := by
  unfold cleanupAllIntervals
  rw [List.eq_nil_iff_forall_not_mem]
  intro t ht
  simp only [List.mem_filter, List.all_eq_true, decide_eq_true_eq] at ht
  obtain ⟨ht1, ht2⟩ := ht
  obtain ⟨p, hp, hpv⟩ := mapGet_mem (hInv.registered t ht1)
  exact ht2 p hp hpv

theorem schedInv_cleanup {C : Type} {s : SchedState C} (hInv : SchedInv s) :
    SchedInv (cleanupAllIntervals s) := by
  have h0 := cleanup_timers_nil hInv
  constructor
  · intro t ht; rw [h0] at ht; exact absurd ht (List.not_mem_nil t)
  · intro t ht; rw [h0] at ht; exact absurd ht (List.not_mem_nil t)
  · rw [h0]; exact List.Pairwise.nil

/-- The operations exported by the scheduler module. -/
inductive SchedOp (C : Type) where
  | start (e : String) (cb : C)
  | stop (e : String)
  | stopAll
deriving DecidableEq, Repr

/-- Apply one scheduler operation. -/
def applySchedOp {C : Type} (s : SchedState C) : SchedOp C → SchedState C
  | .start e cb => startEmptyGalleryRevalidation e cb s
  | .stop e => stopEmptyGalleryRevalidation e s
  | .stopAll => cleanupAllIntervals s

/-- Apply a sequence of scheduler operations, oldest first. -/
def applySchedOps {C : Type} (ops : List (SchedOp C)) (s : SchedState C) :
    SchedState C :=
  ops.foldl applySchedOp s

theorem schedInv_applySchedOp {C : Type} (op : SchedOp C) {s : SchedState C}
    (hInv : SchedInv s) : SchedInv (applySchedOp s op) := by
  cases op with
  | start e cb => exact schedInv_start e cb hInv
  | stop e => exact schedInv_stop e hInv
  | stopAll => exact schedInv_cleanup hInv

theorem schedInv_applySchedOps {C : Type} (ops : List (SchedOp C)) :
    ∀ {s : SchedState C}, SchedInv s → SchedInv (applySchedOps ops s) := by
  induction ops with
  | nil => intro s h; exact h
  | cons op rest ih =>
    intro s h
    exact ih (schedInv_applySchedOp op h)

theorem filter_event_length_le_one {C : Type} (I : List (String × Nat))
    (e : String) :
    ∀ l : List (TimerRec C), (∀ t ∈ l, mapGet t.event I = some t.id) →
      l.Pairwise (fun a b => a.id ≠ b.id) →
      (l.filter (fun t => t.event = e)).length ≤ 1 := by
  intro l
  induction l with
  | nil => simp
  | cons t rest ih =>
    intro hreg hpw
    rw [List.filter_cons]
    by_cases he : t.event = e
    · have hnil : rest.filter (fun u => u.event = e) = [] := by
        rw [List.eq_nil_iff_forall_not_mem]
        intro u hu
        simp only [List.mem_filter, decide_eq_true_eq] at hu
        obtain ⟨hu1, hu2⟩ := hu
        have h1 := hreg t (List.mem_cons_self _ _)
        have h2 := hreg u (List.mem_cons_of_mem _ hu1)
        rw [he] at h1
        rw [hu2] at h2
        rw [h1] at h2
        exact List.rel_of_pairwise_cons hpw hu1 (Option.some.inj h2)
      simp [he, hnil]
    · have h9 : (decide (t.event = e)) = false := by simp [he]
      rw [h9, if_neg (by simp)]
      exact ih (fun u hu => hreg u (List.mem_cons_of_mem _ hu)) hpw.of_cons

theorem timersFor_length_le_one {C : Type} {s : SchedState C}
    (hInv : SchedInv s) (e : String) : (timersFor e s).length ≤ 1 := by
  unfold timersFor
  exact filter_event_length_le_one s.intervals e s.timers hInv.registered
    hInv.idsDistinct

theorem start_timersFor {C : Type} (e : String) (cb : C) {s : SchedState C}
    (hInv : SchedInv s) :
    timersFor e (startEmptyGalleryRevalidation e cb s) =
      [⟨(stopEmptyGalleryRevalidation e s).nextId, e, cb⟩] := by
  have hne := stop_no_event (e := e) hInv
  unfold startEmptyGalleryRevalidation timersFor
  rw [List.filter_append]
  have h1 : (stopEmptyGalleryRevalidation e s).timers.filter
      (fun t => t.event = e) = [] := by
    rw [List.eq_nil_iff_forall_not_mem]
    intro u hu
    simp only [List.mem_filter, decide_eq_true_eq] at hu
    exact hne u hu.1 hu.2
  rw [h1]
  simp

/-- C5: a second `start` for the same event code replaces the first: the
resulting state has exactly one live timer for that event code and it fires
`cb2`; the first callback's timer is gone (any remaining `cb` timer
pre-existed `start e cb`, unless `cb = cb2`); and after any operation
sequence from the initial state, each event code has at most one live
timer. -/
theorem start_replaces_timer {C : Type} [DecidableEq C] (e : String)
    (cb cb2 : C) (s : SchedState C) (hInv : SchedInv s) :
    ((timersFor e (startEmptyGalleryRevalidation e cb2
        (startEmptyGalleryRevalidation e cb s))).map (fun t => t.cb) =
      [cb2]) ∧
    (∀ t ∈ (startEmptyGalleryRevalidation e cb2
        (startEmptyGalleryRevalidation e cb s)).timers,
        t.cb = cb → t ∈ s.timers ∨ cb = cb2) ∧
    (∀ (ops : List (SchedOp C)) (e9 : String),
        (timersFor e9 (applySchedOps ops emptySched)).length ≤ 1) := by
  have hInv1 := schedInv_start e cb hInv
  refine ⟨?_, ?_, ?_⟩
  · rw [start_timersFor e cb2 hInv1]
    rfl
  · intro t ht htc
    have hsplit : t ∈ (stopEmptyGalleryRevalidation e
        (startEmptyGalleryRevalidation e cb s)).timers ∨
        t = ⟨(stopEmptyGalleryRevalidation e
          (startEmptyGalleryRevalidation e cb s)).nextId, e, cb2⟩ := by
      unfold startEmptyGalleryRevalidation at ht
      simpa using ht
    cases hsplit with
    | inr h => right; rw [← htc, h]
    | inl h =>
      left
      have hev := stop_no_event (e := e) hInv1 t h
      have hmem := stop_timers_mem h
      unfold startEmptyGalleryRevalidation at hmem
      simp only [List.mem_append, List.mem_singleton] at hmem
      cases hmem with
      | inl h2 => exact stop_timers_mem h2
      | inr h2 => exact absurd (by rw [h2]) hev
  · intro ops e9
    exact timersFor_length_le_one (schedInv_applySchedOps ops schedInv_empty) e9

/-- Witness for `start_replaces_timer` at concrete inputs. -/
theorem start_replaces_timer_witness :
    SchedInv (emptySched (C := Nat)) ∧
    (((timersFor "evt1" (startEmptyGalleryRevalidation "evt1" 2
        (startEmptyGalleryRevalidation "evt1" 1 emptySched))).map
        (fun t => t.cb) = [2]) ∧
      (∀ t ∈ (startEmptyGalleryRevalidation "evt1" 2
          (startEmptyGalleryRevalidation "evt1" 1
            (emptySched (C := Nat)))).timers,
          t.cb = 1 → t ∈ (emptySched (C := Nat)).timers ∨ 1 = 2) ∧
      (∀ (ops : List (SchedOp Nat)) (e9 : String),
          (timersFor e9 (applySchedOps ops emptySched)).length ≤ 1)) :=
  ⟨schedInv_empty,
    start_replaces_timer "evt1" 1 2 emptySched schedInv_empty⟩

/-- C6: after `start e cb` then `stop e`, no live timer fires `cb` (given
`cb` was not registered beforehand), so the scheduler never invokes `cb`
again; and `stop e` on a state whose map has no entry for `e` is the
identity. -/
theorem stop_cancels_callback {C : Type} [DecidableEq C] (e : String)
    (cb : C) (s : SchedState C) (hInv : SchedInv s)
    (hcb : ∀ t ∈ s.timers, t.cb ≠ cb) :
    (∀ t ∈ (stopEmptyGalleryRevalidation e
        (startEmptyGalleryRevalidation e cb s)).timers, t.cb ≠ cb) ∧
    (∀ s9 : SchedState C, mapGet e s9.intervals = none →
        stopEmptyGalleryRevalidation e s9 = s9) := by
  constructor
  · intro t ht
    have hInv1 := schedInv_start e cb hInv
    have hev := stop_no_event (e := e) hInv1 t ht
    have hmem := stop_timers_mem ht
    unfold startEmptyGalleryRevalidation at hmem
    simp only [List.mem_append, List.mem_singleton] at hmem
    cases hmem with
    | inl h2 => exact hcb t (stop_timers_mem h2)
    | inr h2 => exact absurd (by rw [h2]) hev
  · intro s9 h9
    unfold stopEmptyGalleryRevalidation
    rw [h9]

/-- Witness for `stop_cancels_callback` at concrete inputs. -/
theorem stop_cancels_callback_witness :
    (SchedInv (emptySched (C := Nat)) ∧
      ∀ t ∈ (emptySched (C := Nat)).timers, t.cb ≠ 5) ∧
    ((∀ t ∈ (stopEmptyGalleryRevalidation "evt1"
        (startEmptyGalleryRevalidation "evt1" 5
          (emptySched (C := Nat)))).timers, t.cb ≠ 5) ∧
      (∀ s9 : SchedState Nat, mapGet "evt1" s9.intervals = none →
          stopEmptyGalleryRevalidation "evt1" s9 = s9)) :=
  ⟨⟨schedInv_empty, by simp [emptySched]⟩,
    stop_cancels_callback "evt1" 5 emptySched schedInv_empty
      (by simp [emptySched])⟩

/-! ## Debounce helper (createDebouncedFunction in galleryCache.ts)

The wrapper holds a single `timeoutId`. Each call does
`clearTimeout(timeoutId)` then `timeoutId = setTimeout(func(args), delay)`.
The event loop fires a pending timeout as soon as its due time is reached,
so processing a call at time `t` first fires the pending timeout if it was
due by `t`, then replaces it. -/

/-- State of one debounced wrapper: the pending timeout (due time and the
captured arguments), and the underlying invocations of `func` so far. -/
structure DebState (α : Type) where
  pending : Option (Nat × α)
  invocations : List α
deriving DecidableEq, Repr

/-- Fire the pending timeout if its due time has been reached at time `t`
(event-loop behaviour between the moments the wrapper is called). -/
def debElapse {α : Type} (t : Nat) (s : DebState α) : DebState α :=
  match s.pending with
  | some pa =>
    if pa.1 ≤ t then ⟨none, s.invocations ++ [pa.2]⟩ else s
  | none => s

/-- One call of the debounced wrapper at time `t` with arguments `a`:
any timeout due by `t` has fired first, then `clearTimeout` of the pending
timeout and `setTimeout` of a new one `delay` later. -/
def debCall {α : Type} (delay : Nat) (t : Nat) (a : α) (s : DebState α) :
    DebState α :=
  { debElapse t s with pending := some (t + delay, a) }

/-- Run a sequence of timestamped calls of the debounced wrapper. -/
def debRun {α : Type} (delay : Nat) (calls : List (Nat × α))
    (s : DebState α) : DebState α :=
  calls.foldl (fun s9 p => debCall delay p.1 p.2 s9) s

/-- All invocations of `func` once all pending timeouts have fired. -/
def debFinal {α : Type} (s : DebState α) : List α :=
  s.invocations ++ (match s.pending with
    | some pa => [pa.2]
    | none => [])

/-- Consecutive calls each arrive strictly before the previous call's
timeout is due. -/
def withinWindow {α : Type} (delay : Nat) (calls : List (Nat × α)) : Prop :=
  List.Chain' (fun p q => q.1 < p.1 + delay) calls

instance {α : Type} (delay : Nat) (calls : List (Nat × α)) :
    Decidable (withinWindow delay calls) :=
  inferInstanceAs
    (Decidable (List.Chain' (fun (p q : Nat × α) => q.1 < p.1 + delay) calls))

theorem debRun_within {α : Type} (delay : Nat) :
    ∀ (rest : List (Nat × α)) (first : Nat × α) (inv0 : List α),
      withinWindow delay (first :: rest) →
      debRun delay rest ⟨some (first.1 + delay, first.2), inv0⟩ =
        ⟨some ((rest.getLastD first).1 + delay, (rest.getLastD first).2),
          inv0⟩ := by
  intro rest
  induction rest with
  | nil => intro first inv0 _; rfl
  | cons p ps ih =>
    intro first inv0 hw
    have hlt : p.1 < first.1 + delay := by
      unfold withinWindow at hw
      exact (List.chain'_cons.mp hw).1
    have hw9 : withinWindow delay (p :: ps) := by
      unfold withinWindow at hw ⊢
      exact (List.chain'_cons.mp hw).2
    have hstep : debCall delay p.1 p.2
        (⟨some (first.1 + delay, first.2), inv0⟩ : DebState α) =
        ⟨some (p.1 + delay, p.2), inv0⟩ := by
      unfold debCall debElapse
      simp only
      rw [if_neg (by omega)]
    show debRun delay ps (debCall delay p.1 p.2
      ⟨some (first.1 + delay, first.2), inv0⟩) = _
    rw [hstep, ih p inv0 hw9, List.getLastD_cons]

/-- C7: any number of calls of the debounced wrapper, each arriving within
the delay window of the previous one, collapse into exactly one underlying
invocation, due `delay` after the last call and carrying the last call's
arguments; no earlier call's invocation survives. -/
theorem debounce_collapses_calls {α : Type} (delay : Nat)
    (first : Nat × α) (rest : List (Nat × α))
    (hw : withinWindow delay (first :: rest)) :
    (debRun delay (first :: rest) ⟨none, []⟩).invocations = [] ∧
    (debRun delay (first :: rest) ⟨none, []⟩).pending =
      some ((rest.getLastD first).1 + delay, (rest.getLastD first).2) ∧
    debFinal (debRun delay (first :: rest) ⟨none, []⟩) =
      [(rest.getLastD first).2] := by
  have h0 : debRun delay (first :: rest) ⟨none, []⟩ =
      debRun delay rest ⟨some (first.1 + delay, first.2), []⟩ := rfl
  rw [h0, debRun_within delay rest first [] hw]
  exact ⟨rfl, rfl, rfl⟩

/-- Witness for `debounce_collapses_calls`: five calls within a 300 ms
window collapse to one invocation with the fifth call's arguments. -/
theorem debounce_collapses_calls_witness :
    withinWindow 300 [(0, 1), (100, 2), (200, 3), (250, 4), (299, 5)] ∧
    ((debRun 300 [(0, (1 : Nat)), (100, 2), (200, 3), (250, 4), (299, 5)]
        ⟨none, []⟩).invocations = [] ∧
      (debRun 300 [(0, (1 : Nat)), (100, 2), (200, 3), (250, 4), (299, 5)]
        ⟨none, []⟩).pending =
        some (([(100, (2 : Nat)), (200, 3), (250, 4),
          (299, 5)].getLastD (0, 1)).1 + 300,
          ([(100, (2 : Nat)), (200, 3), (250, 4),
            (299, 5)].getLastD (0, 1)).2) ∧
      debFinal (debRun 300 [(0, (1 : Nat)), (100, 2), (200, 3), (250, 4),
        (299, 5)] ⟨none, []⟩) =
        [([(100, (2 : Nat)), (200, 3), (250, 4),
          (299, 5)].getLastD (0, 1)).2]) :=
  ⟨by simp [withinWindow, List.chain'_cons],
    debounce_collapses_calls 300 (0, 1)
      [(100, 2), (200, 3), (250, 4), (299, 5)]
      (by simp [withinWindow, List.chain'_cons])⟩

/-! ## Refresh-trigger path of the Gallery component (Gallery.tsx 146-166)

`debouncedFetchFiles` creates a fresh `setTimeout` on every call and
returns a cancel closure; the effect body calls `debouncedFetchFiles()`
and discards that cancel closure, so no pending timeout is ever cleared. -/

/-- Pending foreground-fetch timeouts scheduled by the refresh path (due
times), plus how many have already been created. -/
structure RefreshState where
  timeouts : List Nat
deriving DecidableEq, Repr

/-- `debouncedFetchFiles` at time `t`: schedules
`setTimeout(fetchFilesFromSupabase, 300)`; the returned cancel closure is
discarded by the caller, so nothing is removed. -/
def debouncedFetchFiles (t : Nat) (s : RefreshState) : RefreshState :=
  ⟨s.timeouts ++ [t + 300]⟩

/-- Process a list of refresh triggers (refreshKey changes), oldest first:
the effect sees `refreshKey` change and calls `debouncedFetchFiles`. -/
def runRefreshTriggers (triggers : List Nat) : RefreshState :=
  triggers.foldl (fun s t => debouncedFetchFiles t s) ⟨[]⟩

/-- Since no timeout is ever cancelled, every scheduled timeout fires one
foreground fetch. -/
def foregroundFetchCount (s : RefreshState) : Nat := s.timeouts.length

theorem runRefreshTriggers_count :
    ∀ (triggers : List Nat) (s : RefreshState),
      foregroundFetchCount (triggers.foldl
        (fun s9 t => debouncedFetchFiles t s9) s) =
        s.timeouts.length + triggers.length := by
  intro triggers
  induction triggers with
  | nil => intro s; rfl
  | cons t ts ih =>
    intro s
    show foregroundFetchCount (ts.foldl _ (debouncedFetchFiles t s)) = _
    rw [ih]
    unfold debouncedFetchFiles
    simp only [List.length_append, List.length_cons, List.length_nil]
    omega

/-- C8 (code bug): two refresh triggers 100 ms apart, well inside the
300 ms delay, schedule two separate foreground fetches: the cancel closure
returned by `debouncedFetchFiles` is discarded, so triggers are not
coalesced and each one produces its own backend fetch. -/
theorem refresh_triggers_not_coalesced :
    foregroundFetchCount (runRefreshTriggers [0, 100]) = 2 ∧
    (runRefreshTriggers [0, 100]).timeouts = [300, 400] ∧
    foregroundFetchCount (runRefreshTriggers [0, 100]) ≠ 1 := by
  refine ⟨rfl, rfl, ?_⟩
  decide

/-! ## Gallery fetch routine (fetchFilesFromSupabase in Gallery.tsx)

The awaited backend query either yields the database rows or fails (a
`dbError` or a thrown exception, both landing in the catch block with the
error's message). All component state touched by the routine is made
explicit: the `files`, `loading` and `error` state hooks, the toasts shown,
the module-level listing cache and the revalidation scheduler (whose
callback re-runs the routine in background mode, represented by the event
code it closes over). -/

/-- A row of the `media` table for one event. -/
structure MediaRecord where
  filename : String
  id : String
  created_at : String
  file_size : Option Int
  uploader_name : Option String
deriving DecidableEq, Repr

/-- The file descriptor shape used by the UI. -/
structure FileObject where
  name : String
  id : String
  created_at : String
  size : Int
  uploader_name : String
deriving DecidableEq, Repr

/-- Convert a database record to a `FileObject`:
`record.file_size || 0` and `record.uploader_name || 'Unknown'` (JS
truthiness: a missing value or empty string falls back). -/
def toFileObject (r : MediaRecord) : FileObject :=
  { name := r.filename
    id := r.id
    created_at := r.created_at
    size := r.file_size.getD 0
    uploader_name :=
      match r.uploader_name with
      | some u => if u = "" then "Unknown" else u
      | none => "Unknown" }

/-- Outcome of the awaited backend listing query. -/
inductive FetchResult where
  | ok (dbData : List MediaRecord)
  | err (msg : String)
deriving DecidableEq, Repr

/-- Component and module state the fetch routine reads and writes. -/
structure GalleryState where
  files : List FileObject
  loading : Bool
  error : Option String
  toasts : List String
  cache : CacheState FileObject
  sched : SchedState String
deriving DecidableEq

/-- `fetchFilesFromSupabase(isBackground)` at time `now`, with the awaited
query outcome `result`. Mirrors Gallery.tsx lines 59-127: foreground entry
sets `loading` and clears `error`; on success the rows are converted,
the cache entry is overwritten, `setFiles` keeps the previous array when
its JSON serialization matches the new one, and the empty-gallery
revalidation is started or stopped; on failure `setError` runs
unconditionally while the toast and the `finally` reset of `loading` are
foreground-only. -/
def fetchFilesFromSupabase (eventCode : String) (isBackground : Bool)
    (result : FetchResult) (now : Int) (s : GalleryState) : GalleryState :=
  let s0 := if isBackground then s else { s with loading := true, error := none }
  match result with
  | .ok dbData =>
    let sortedFiles := dbData.map toFileObject
    let mappedFiles := sortedFiles.map (fun f =>
      ({ name := f.name, id := f.id, created_at := f.created_at,
         size := f.size, uploader_name := f.uploader_name } : FileObject))
    let s1 := { s0 with
      cache := setCachedListing eventCode mappedFiles now s0.cache }
    let s2 := { s1 with
      files := if s1.files ≠ sortedFiles then sortedFiles else s1.files }
    let s3 :=
      if sortedFiles.length = 0 then
        { s2 with
          sched := startEmptyGalleryRevalidation eventCode eventCode s2.sched }
      else
        { s2 with sched := stopEmptyGalleryRevalidation eventCode s2.sched }
    if isBackground then s3 else { s3 with loading := false }
  | .err msg =>
    let s1 := { s0 with error := some msg }
    let s2 :=
      if isBackground then s1 else { s1 with toasts := s1.toasts ++ [msg] }
    if isBackground then s2 else { s2 with loading := false }

/-- What the component renders. -/
inductive GalleryView where
  | skeleton
  | errorView (msg : String)
  | emptyState
  | grid (files : List FileObject)
deriving DecidableEq, Repr

/-- The render path of Gallery.tsx (lines 370-417): the loading skeleton,
else the error card when `error` is truthy, else the empty state or the
grid of files. -/
def renderView (s : GalleryState) : GalleryView :=
  if s.loading then .skeleton
  else
    match s.error with
    | some msg =>
      if msg = "" then
        if s.files.length = 0 then .emptyState else .grid s.files
      else .errorView msg
    | none =>
      if s.files.length = 0 then .emptyState else .grid s.files

theorem map_fileObject_eta (l : List FileObject) :
    l.map (fun f =>
      ({ name := f.name, id := f.id, created_at := f.created_at,
         size := f.size, uploader_name := f.uploader_name } : FileObject)) = l := by
  induction l with
  | nil => rfl
  | cons f fs ih => rw [List.map_cons, ih]

theorem map_fileObject_eta_comp (l : List MediaRecord) :
    l.map ((fun f =>
      ({ name := f.name, id := f.id, created_at := f.created_at,
         size := f.size, uploader_name := f.uploader_name } : FileObject)) ∘
      toFileObject) = l.map toFileObject := by
  rw [← List.map_map, map_fileObject_eta]

/-- C4: a successful fetch unconditionally overwrites the event's cache
entry with the new listing and the fresh timestamp, and replaces the
displayed listing only when the new listing differs from the currently
displayed one (when equal, the previous value is kept). -/
theorem success_fetch_cache_and_display (e : String) (isBg : Bool)
    (dbData : List MediaRecord) (now : Int) (s : GalleryState) :
    mapGet e (fetchFilesFromSupabase e isBg (.ok dbData) now s).cache =
      some ⟨dbData.map toFileObject, now, e⟩ ∧
    (fetchFilesFromSupabase e isBg (.ok dbData) now s).files =
      (if s.files = dbData.map toFileObject then s.files
       else dbData.map toFileObject) := by
  unfold fetchFilesFromSupabase
  cases isBg <;>
    by_cases hlen : dbData = [] <;>
    by_cases heq : s.files = dbData.map toFileObject <;>
    simp [hlen, heq, setCachedListing, mapGet_mapSet_self, map_fileObject_eta,
      map_fileObject_eta_comp]

/-- C10: a failed fetch leaves the listing cache exactly as it was: the
cache is written only on the success path. -/
theorem failed_fetch_preserves_cache (e : String) (isBg : Bool)
    (msg : String) (now : Int) (s : GalleryState) :
    (fetchFilesFromSupabase e isBg (.err msg) now s).cache = s.cache := by
  unfold fetchFilesFromSupabase
  cases isBg <;> rfl

/-- A concrete pre-state for the background-failure scenario: one file is
displayed, no error, not loading. -/
def bgFailFile : FileObject := ⟨"a.jpg", "1", "t0", 100, "Alice"⟩

/-- Pre-state displaying `bgFailFile` with no error. -/
def bgFailState : GalleryState :=
  { files := [bgFailFile], loading := false, error := none, toasts := [],
    cache := [], sched := emptySched }

/-- C3 is false on the code: a failed background fetch calls `setError`
unconditionally (Gallery.tsx catch block), and the render path shows the
error card before the file grid, so the previously displayed listing is
visibly replaced by an error. Before the failing background fetch the grid
is shown; afterwards the error view is shown instead. -/
theorem background_failure_shows_error_counterexample :
    renderView bgFailState = .grid [bgFailFile] ∧
    (fetchFilesFromSupabase "evt1" true (.err "network down") 0
      bgFailState).files = [bgFailFile] ∧
    renderView (fetchFilesFromSupabase "evt1" true (.err "network down") 0
      bgFailState) = .errorView "network down" ∧
    renderView (fetchFilesFromSupabase "evt1" true (.err "network down") 0
      bgFailState) ≠ .grid [bgFailFile] := by
  refine ⟨rfl, rfl, rfl, ?_⟩
  decide

/-- C3 amended: a failed background fetch shows no toast, does not toggle
`loading`, and leaves the displayed files, cache and scheduler untouched,
but it does set the error state; when the component is not loading and the
message is non-empty, the next render therefore shows the error view in
place of the listing. Foreground failures additionally show a toast. -/
theorem background_failure_state_effects (e : String) (msg : String)
    (now : Int) (s : GalleryState) :
    (fetchFilesFromSupabase e true (.err msg) now s).files = s.files ∧
    (fetchFilesFromSupabase e true (.err msg) now s).toasts = s.toasts ∧
    (fetchFilesFromSupabase e true (.err msg) now s).loading = s.loading ∧
    (fetchFilesFromSupabase e true (.err msg) now s).cache = s.cache ∧
    (fetchFilesFromSupabase e true (.err msg) now s).sched = s.sched ∧
    (fetchFilesFromSupabase e true (.err msg) now s).error = some msg ∧
    (s.loading = false → msg ≠ "" →
      renderView (fetchFilesFromSupabase e true (.err msg) now s) =
        .errorView msg) ∧
    (fetchFilesFromSupabase e false (.err msg) now s).toasts =
      s.toasts ++ [msg] := by
  refine ⟨rfl, rfl, rfl, rfl, rfl, rfl, ?_, rfl⟩
  intro hload hmsg
  unfold fetchFilesFromSupabase renderView
  simp [hload, hmsg]

/-- Witness for `background_failure_state_effects` at concrete inputs. -/
theorem background_failure_state_effects_witness :
    (fetchFilesFromSupabase "evt1" true (.err "boom") 0
      bgFailState).files = bgFailState.files ∧
    (fetchFilesFromSupabase "evt1" true (.err "boom") 0
      bgFailState).toasts = bgFailState.toasts ∧
    (fetchFilesFromSupabase "evt1" true (.err "boom") 0
      bgFailState).loading = bgFailState.loading ∧
    (fetchFilesFromSupabase "evt1" true (.err "boom") 0
      bgFailState).cache = bgFailState.cache ∧
    (fetchFilesFromSupabase "evt1" true (.err "boom") 0
      bgFailState).sched = bgFailState.sched ∧
    (fetchFilesFromSupabase "evt1" true (.err "boom") 0
      bgFailState).error = some "boom" ∧
    (bgFailState.loading = false → "boom" ≠ "" →
      renderView (fetchFilesFromSupabase "evt1" true (.err "boom") 0
        bgFailState) = .errorView "boom") ∧
    (fetchFilesFromSupabase "evt1" false (.err "boom") 0
      bgFailState).toasts = bgFailState.toasts ++ ["boom"] :=
  background_failure_state_effects "evt1" "boom" 0 bgFailState

end EventGallery
